import Mathlib

/-!
Shallow embedding of the channelcheck analyzer
(`src/cmd/channelcheck/main.go`, with `src/channelcheck.go` a near-duplicate
of the same core logic).

Modelling conventions:
* A Go AST node is `Node.mk kind range children`.  The `kind` discriminant
  distinguishes the node types the analyzer inspects (`*ast.SendStmt`,
  `*ast.SelectStmt`, `*ast.CallExpr`, `*ast.ChanType`, `*ast.Ident` with its
  `Name`); every other node type is `NodeKind.other tag`.
* `children` lists a node's sub-nodes in the order `ast.Inspect` visits them.
  For a `CallExpr` the Go fields map as: `Fun` = first child, `Args` = the
  remaining children (this is exactly the order `ast.Walk` visits them).
* The parser collaborator (`token.FileSet`, `a.fset`) is out of scope per the
  spec; each node directly carries the `Position` range that
  `Analyzer.getPosition(node.Pos(), node.End())` would compute for it.
* Go's nil AST nodes are unrepresentable in the embedding; the nil-guards in
  `parentStack.push`, `checkChannelSend` and `analyze` therefore have no
  visible counterpart (they are vacuously satisfied).
* `ast.Inspect(file, f)` with a callback that always returns `true` calls
  `f n` on entering node `n`, recurses into its children, and then calls
  `f nil` once when leaving `n`.  The embedding `walk` performs
  `enterStep` (the non-nil branch of the callback), recurses, then
  `exitStep` (the nil branch).
-/

/-- Position mirrors the `Position` struct of `main.go`: a source range with
filename, start line/column and end line/column. -/
structure Position where
  filename : String
  startLine : Nat
  startColumn : Nat
  endLine : Nat
  endColumn : Nat
deriving DecidableEq, Repr

/-- Issue mirrors the `Issue` struct of `main.go`: a position range, a message
and a severity string. -/
structure Issue where
  pos : Position
  message : String
  severity : String
deriving DecidableEq, Repr

/-- Discriminant kind of an AST node, covering exactly the node types the
analyzer's type switch and type assertions distinguish. -/
inductive NodeKind where
  | sendStmt : NodeKind
  | selectStmt : NodeKind
  | callExpr : NodeKind
  | chanType : NodeKind
  | ident : String → NodeKind
  | other : String → NodeKind
deriving DecidableEq, Repr

/-- A syntax-tree node: discriminant kind, source range, children in
`ast.Inspect` visit order. -/
inductive Node where
  | mk : NodeKind → Position → List Node → Node

/-- Kind accessor. -/
def Node.kind : Node → NodeKind
  | .mk k _ _ => k

/-- Source-range accessor (what `a.getPosition(n.Pos(), n.End())` yields). -/
def Node.range : Node → Position
  | .mk _ r _ => r

/-- Children in visit order. -/
def Node.children : Node → List Node
  | .mk _ _ cs => cs

/-- Embeds `parentStack.push`: append the node at the end of the slice. -/
def parentStack.push (nodes : List Node) (n : Node) : List Node :=
  nodes ++ [n]

/-- Embeds `parentStack.pop`: drop the last element if the slice is
non-empty, otherwise leave it unchanged. -/
def parentStack.pop (nodes : List Node) : List Node :=
  if 0 < nodes.length then nodes.dropLast else nodes

/-- Analyzer state: the issue slice and the parent stack (`a.fset` belongs to
the out-of-scope parser collaborator). -/
structure Analyzer where
  issues : List Issue
  stack : List Node

/-- Embeds `Analyzer.addIssue`: append to the issue slice. -/
def addIssue (a : Analyzer) (issue : Issue) : Analyzer :=
  { a with issues := a.issues ++ [issue] }

/-- Message of the channel-send rule, as in `checkChannelSend`. -/
def sendWarningMessage : String :=
  "channel send without select statement may block indefinitely"

/-- Message of the unbuffered-creation rule, as in `checkChannelCreation`. -/
def creationInfoMessage : String :=
  "unbuffered channel creation detected - consider specifying buffer size"

/-- Embeds `Analyzer.checkChannelSend`: scan the whole parent stack for a
`*ast.SelectStmt`; if none is found, record a WARNING at the send's range. -/
def checkChannelSend (a : Analyzer) (node : Node) : Analyzer :=
  let inSelect := a.stack.any fun parent =>
    match parent.kind with
    | NodeKind.selectStmt => true
    | _ => false
  if !inSelect then
    addIssue a
      { pos := node.range
        message := sendWarningMessage
        severity := "WARNING" }
  else
    a

/-- Embeds `Analyzer.checkChannelCreation`: the callee (`node.Fun`, the first
child) must be an identifier named "make", the argument list (`node.Args`, the
remaining children) must be non-empty with a `*ast.ChanType` first argument;
an INFO issue is recorded exactly when there is a single argument. -/
def checkChannelCreation (a : Analyzer) (node : Node) : Analyzer :=
  match node.children with
  | f :: args =>
    match f.kind with
    | NodeKind.ident name =>
      if name = "make" then
        match args with
        | arg0 :: _ =>
          match arg0.kind with
          | NodeKind.chanType =>
            if args.length = 1 then
              addIssue a
                { pos := node.range
                  message := creationInfoMessage
                  severity := "INFO" }
            else
              a
          | _ => a
        | [] => a
      else
        a
    | _ => a
  | [] => a

/-- Embeds the non-nil branch of the `ast.Inspect` callback in
`Analyzer.analyze`: push the node onto the stack, then dispatch on its kind
to the matching rule. -/
def enterStep (a : Analyzer) (n : Node) : Analyzer :=
  let a1 : Analyzer := { a with stack := parentStack.push a.stack n }
  match n.kind with
  | NodeKind.sendStmt => checkChannelSend a1 n
  | NodeKind.callExpr => checkChannelCreation a1 n
  | _ => a1

/-- Embeds the nil branch of the `ast.Inspect` callback in
`Analyzer.analyze`: pop the stack if it is non-empty. -/
def exitStep (a : Analyzer) : Analyzer :=
  if 0 < a.stack.length then { a with stack := parentStack.pop a.stack } else a

mutual

/-- Embeds the `ast.Inspect` recursion for one node: enter, visit the
children in order, then receive the nil signal and leave. -/
def walk (a : Analyzer) : Node → Analyzer
  | Node.mk k r cs =>
    exitStep (walkList (enterStep a (Node.mk k r cs)) cs)

/-- Embeds the `ast.Inspect` recursion over a child list. -/
def walkList (a : Analyzer) : List Node → Analyzer
  | [] => a
  | c :: cs => walkList (walk a c) cs

end

/-- Embeds `Analyzer.analyze`: return immediately when the file is nil,
otherwise reset the parent stack (and only the stack) and run the
`ast.Inspect` traversal from the file node. -/
def analyze (a : Analyzer) (file : Option Node) : Analyzer :=
  match file with
  | none => a
  | some root => walk { a with stack := [] } root

/-- Issues contributed by the rule invocation on node `n` when the stack
contents before `n` is pushed (its ancestor path) are `p`; extracted by
running the enter step of the `ast.Inspect` callback on an empty collector. -/
def visitEmission (p : List Node) (n : Node) : List Issue :=
  (enterStep { issues := [], stack := p } n).issues

mutual

/-- Issues the traversal of the subtree rooted at `n` contributes to the
collector when the ancestor path of `n` is `p`. -/
def treeEmission (p : List Node) : Node → List Issue
  | Node.mk k r cs =>
    visitEmission p (Node.mk k r cs)
      ++ forestEmission (p ++ [Node.mk k r cs]) cs

/-- Issues contributed by traversing a list of sibling subtrees whose common
ancestor path is `p`. -/
def forestEmission (p : List Node) : List Node → List Issue
  | [] => []
  | c :: cs => treeEmission p c ++ forestEmission p cs

end

/-- Issues appended to the collector by one `analyze` call: the suffix of the
resulting issue slice past the issues that were already present. -/
def newIssues (a : Analyzer) (file : Option Node) : List Issue :=
  ((analyze a file).issues).drop a.issues.length

/-- Closed form of the issues the send rule appends, given the stack it
scans. -/
def sendIssues (stack : List Node) (n : Node) : List Issue :=
  if stack.any (fun parent =>
      match parent.kind with
      | NodeKind.selectStmt => true
      | _ => false) then
    []
  else
    [{ pos := n.range, message := sendWarningMessage, severity := "WARNING" }]

/-- Closed form of the issues the creation rule appends for a call node. -/
def creationIssues (n : Node) : List Issue :=
  match n.children with
  | f :: args =>
    match f.kind with
    | NodeKind.ident name =>
      if name = "make" then
        match args with
        | arg0 :: _ =>
          match arg0.kind with
          | NodeKind.chanType =>
            if args.length = 1 then
              [{ pos := n.range, message := creationInfoMessage, severity := "INFO" }]
            else []
          | _ => []
        | [] => []
      else []
    | _ => []
  | [] => []

/-- Closed form of the issues one rule invocation appends: the stack scanned
by the send rule is the incoming stack with the node already pushed. -/
def ruleEmission (p : List Node) (n : Node) : List Issue :=
  match n.kind with
  | NodeKind.sendStmt => sendIssues (parentStack.push p n) n
  | NodeKind.callExpr => creationIssues n
  | _ => []

/-- The send rule only appends to the issue slice and leaves the stack
alone; what it appends is `sendIssues` of the scanned stack. -/
theorem checkChannelSend_split (a : Analyzer) (n : Node) :
    checkChannelSend a n
      = { issues := a.issues ++ sendIssues a.stack n
          stack := a.stack } := by
  obtain ⟨is, st⟩ := a
  cases h : st.any fun parent =>
      match parent.kind with
      | NodeKind.selectStmt => true
      | _ => false <;>
    simp [checkChannelSend, sendIssues, addIssue, h]

/-- The creation rule only appends to the issue slice and leaves the stack
alone; what it appends is `creationIssues` of the node. -/
theorem checkChannelCreation_split (a : Analyzer) (n : Node) :
    checkChannelCreation a n
      = { issues := a.issues ++ creationIssues n
          stack := a.stack } := by
  obtain ⟨is, st⟩ := a
  obtain ⟨k, r, cs⟩ := n
  cases cs with
  | nil => simp [checkChannelCreation, creationIssues, Node.children]
  | cons f args =>
    obtain ⟨fk, fr, fcs⟩ := f
    cases fk <;>
      simp only [checkChannelCreation, creationIssues, Node.children, Node.kind] <;>
      try simp
    case ident name =>
      by_cases hname : name = "make"
      · subst hname
        simp only [if_pos rfl]
        cases args with
        | nil => simp
        | cons arg0 rest =>
          obtain ⟨ak, ar, acs⟩ := arg0
          cases ak <;> simp only [Node.kind] <;> try simp
          split <;> simp [addIssue]
      · simp [hname]

/-- The enter step pushes the node onto the stack and appends exactly the
rule emission of the node at the incoming stack. -/
theorem enterStep_split (a : Analyzer) (n : Node) :
    enterStep a n
      = { issues := a.issues ++ ruleEmission a.stack n
          stack := parentStack.push a.stack n } := by
  obtain ⟨is, st⟩ := a
  obtain ⟨k, r, cs⟩ := n
  cases k <;>
    simp [enterStep, ruleEmission, Node.kind, checkChannelSend_split,
      checkChannelCreation_split, parentStack.push]

/-- The visit emission extracted from the source enter step coincides with
the closed-form rule emission. -/
theorem visitEmission_eq (p : List Node) (n : Node) :
    visitEmission p n = ruleEmission p n := by
  simp [visitEmission, enterStep_split]

mutual

/-- Traversing a subtree appends exactly its tree emission and restores the
stack. -/
theorem walk_split : ∀ (n : Node) (a : Analyzer),
    walk a n = { issues := a.issues ++ treeEmission a.stack n, stack := a.stack }
  | Node.mk k r cs, a => by
    rw [walk, enterStep_split, walkList_split cs, treeEmission]
    simp [exitStep, parentStack.pop, parentStack.push, visitEmission_eq]

/-- Traversing a sibling list appends exactly its forest emission and
restores the stack. -/
theorem walkList_split : ∀ (cs : List Node) (a : Analyzer),
    walkList a cs
      = { issues := a.issues ++ forestEmission a.stack cs, stack := a.stack }
  | [], a => by simp [walkList, forestEmission]
  | c :: cs, a => by
    rw [walkList, walk_split c, walkList_split cs]
    simp [forestEmission]

end

/-- Analyzing a parsed file resets the stack, walks the tree, and appends
exactly the tree emission of the file computed from an empty ancestor path. -/
theorem analyze_split (a : Analyzer) (t : Node) :
    analyze a (some t) = { issues := a.issues ++ treeEmission [] t, stack := [] } := by
  show walk { a with stack := [] } t = _
  rw [walk_split]

/-- Sample position in file a.go. -/
def posA : Position :=
  { filename := "a.go", startLine := 5, startColumn := 3, endLine := 5, endColumn := 10 }

/-- Sample position in file b.go. -/
def posB : Position :=
  { filename := "b.go", startLine := 2, startColumn := 1, endLine := 2, endColumn := 8 }

/-- Sample position in file c.go. -/
def posC : Position :=
  { filename := "c.go", startLine := 7, startColumn := 2, endLine := 7, endColumn := 20 }

/-- Concrete send statement node, with its channel and value children. -/
def sendA : Node :=
  Node.mk NodeKind.sendStmt posA
    [Node.mk (NodeKind.ident "ch") posA [], Node.mk (NodeKind.other "BasicLit") posA []]

/-- Concrete file node containing only `sendA`. -/
def fileA : Node := Node.mk (NodeKind.other "File") posA [sendA]

/-- Concrete send statement node located in b.go. -/
def sendB : Node :=
  Node.mk NodeKind.sendStmt posB
    [Node.mk (NodeKind.ident "ch") posB [], Node.mk (NodeKind.other "BasicLit") posB []]

/-- Concrete file node containing only `sendB`. -/
def fileB : Node := Node.mk (NodeKind.other "File") posB [sendB]

/-- Concrete select statement node. -/
def selectA : Node :=
  Node.mk NodeKind.selectStmt posA [Node.mk (NodeKind.other "CommClause") posA []]

/-- Concrete plain block node. -/
def blockA : Node := Node.mk (NodeKind.other "BlockStmt") posA []

/-- Callee identifier node named make. -/
def makeIdent : Node := Node.mk (NodeKind.ident "make") posC []

/-- Callee identifier node with a name other than make. -/
def fooIdent : Node := Node.mk (NodeKind.ident "foo") posC []

/-- Channel type node. -/
def chanTypeC : Node := Node.mk NodeKind.chanType posC []

/-- Basic literal node. -/
def litC : Node := Node.mk (NodeKind.other "BasicLit") posC []

/-- Claim C1: for every send statement node whose ancestor chain `p` contains
no select statement, the traversal emits exactly one issue for that send,
with severity WARNING, the fixed blocking message, and the send's source
range.  The first conjunct states that the issues `analyze` appends decompose
as the concatenation of the per-visit emissions over the tree; the second
that the send's visit contributes exactly the one WARNING. -/
theorem send_without_select_warns (a : Analyzer) (t : Node) (p : List Node) (n : Node)
    (hk : n.kind = NodeKind.sendStmt)
    (hns : ∀ m ∈ p, m.kind ≠ NodeKind.selectStmt) :
    (analyze a (some t)).issues = a.issues ++ treeEmission [] t
    ∧ visitEmission p n
      = [{ pos := n.range, message := sendWarningMessage, severity := "WARNING" }] := by
  refine ⟨by rw [analyze_split], ?_⟩
  rw [visitEmission_eq]
  simp only [ruleEmission, hk]
  have hany : (parentStack.push p n).any (fun parent =>
      match parent.kind with
      | NodeKind.selectStmt => true
      | _ => false) = false := by
    rw [List.any_eq_false]
    intro m hm
    simp only [parentStack.push, List.mem_append, List.mem_singleton] at hm
    rcases hm with hm | rfl
    · have hne := hns m hm
      cases hmk : m.kind <;> simp_all
    · simp [hk]
  simp [sendIssues, hany]

/-- Witness for C1 at a concrete send under a file node. -/
theorem send_without_select_warns_witness :
    sendA.kind = NodeKind.sendStmt
    ∧ (∀ m ∈ [fileA], m.kind ≠ NodeKind.selectStmt)
    ∧ visitEmission [fileA] sendA
      = [{ pos := sendA.range, message := sendWarningMessage, severity := "WARNING" }] :=
  ⟨rfl, by decide,
    (send_without_select_warns { issues := [], stack := [] } fileA [fileA] sendA rfl
      (by decide)).2⟩

/-- Claim C2: for every send statement node whose ancestor chain `p` contains
a select statement anywhere, at any depth and regardless of intervening
nodes, the visit of that send contributes no issue at all. -/
theorem send_inside_select_silent (a : Analyzer) (t : Node) (p : List Node) (n : Node)
    (hk : n.kind = NodeKind.sendStmt)
    (hsel : ∃ m ∈ p, m.kind = NodeKind.selectStmt) :
    (analyze a (some t)).issues = a.issues ++ treeEmission [] t
    ∧ visitEmission p n = [] := by
  refine ⟨by rw [analyze_split], ?_⟩
  rw [visitEmission_eq]
  simp only [ruleEmission, hk]
  obtain ⟨m, hm, hmk⟩ := hsel
  have hany : (parentStack.push p n).any (fun parent =>
      match parent.kind with
      | NodeKind.selectStmt => true
      | _ => false) = true := by
    simp only [parentStack.push, List.any_append, Bool.or_eq_true, List.any_eq_true]
    exact Or.inl ⟨m, hm, by simp [hmk]⟩
  simp [sendIssues, hany]

/-- Witness for C2 at a send nested under a select through a plain block. -/
theorem send_inside_select_silent_witness :
    sendA.kind = NodeKind.sendStmt
    ∧ (∃ m ∈ [fileA, selectA, blockA], m.kind = NodeKind.selectStmt)
    ∧ visitEmission [fileA, selectA, blockA] sendA = [] :=
  ⟨rfl, ⟨selectA, List.mem_cons_of_mem _ (List.mem_cons_self _ _), rfl⟩,
    (send_inside_select_silent { issues := [], stack := [] } fileA
      [fileA, selectA, blockA] sendA rfl
      ⟨selectA, List.mem_cons_of_mem _ (List.mem_cons_self _ _), rfl⟩).2⟩

/-- Claim C3: a call whose callee is the bare identifier make and whose first
argument is a channel type yields exactly one INFO issue at the call's range
when it has exactly one argument; with two or more arguments, with a callee
that is not the identifier make, or with a non-channel-type first argument,
the call's visit contributes no issue.  Children of a call node are its
callee followed by its arguments. -/
theorem unbuffered_make_rule (p : List Node) (r : Position) (cs : List Node) :
    (∀ f arg0, cs = [f, arg0] → f.kind = NodeKind.ident "make" →
        arg0.kind = NodeKind.chanType →
        visitEmission p (Node.mk NodeKind.callExpr r cs)
          = [{ pos := r, message := creationInfoMessage, severity := "INFO" }])
    ∧ (∀ f arg0 arg1 rest, cs = f :: arg0 :: arg1 :: rest →
        visitEmission p (Node.mk NodeKind.callExpr r cs) = [])
    ∧ (∀ f rest, cs = f :: rest → f.kind ≠ NodeKind.ident "make" →
        visitEmission p (Node.mk NodeKind.callExpr r cs) = [])
    ∧ (∀ f arg0 rest, cs = f :: arg0 :: rest → arg0.kind ≠ NodeKind.chanType →
        visitEmission p (Node.mk NodeKind.callExpr r cs) = []) := by
  refine ⟨?_, ?_, ?_, ?_⟩
  · rintro f arg0 rfl hf ha
    rw [visitEmission_eq]
    obtain ⟨fk, fr, fcs⟩ := f
    obtain ⟨ak, ar, acs⟩ := arg0
    simp only [Node.kind] at hf ha
    subst hf
    subst ha
    simp [ruleEmission, Node.kind, creationIssues, Node.children, Node.range]
  · rintro f arg0 arg1 rest rfl
    rw [visitEmission_eq]
    obtain ⟨fk, fr, fcs⟩ := f
    obtain ⟨ak, ar, acs⟩ := arg0
    simp only [ruleEmission, Node.kind, creationIssues, Node.children]
    cases fk <;> cases ak <;> simp [Node.kind]
  · rintro f rest rfl hf
    rw [visitEmission_eq]
    obtain ⟨fk, fr, fcs⟩ := f
    simp only [ruleEmission, Node.kind, creationIssues, Node.children]
    cases fk <;> simp_all [Node.kind]
  · rintro f arg0 rest rfl ha
    rw [visitEmission_eq]
    obtain ⟨fk, fr, fcs⟩ := f
    obtain ⟨ak, ar, acs⟩ := arg0
    simp only [ruleEmission, Node.kind, creationIssues, Node.children]
    cases fk <;> cases ak <;> simp_all [Node.kind]

/-- Witness for C3 at four concrete calls: a one-argument make of a channel
type, the same with a capacity argument, a non-make callee, and a make whose
first argument is not a channel type. -/
theorem unbuffered_make_rule_witness :
    visitEmission [] (Node.mk NodeKind.callExpr posC [makeIdent, chanTypeC])
      = [{ pos := posC, message := creationInfoMessage, severity := "INFO" }]
    ∧ visitEmission [] (Node.mk NodeKind.callExpr posC [makeIdent, chanTypeC, litC]) = []
    ∧ visitEmission [] (Node.mk NodeKind.callExpr posC [fooIdent, chanTypeC]) = []
    ∧ visitEmission [] (Node.mk NodeKind.callExpr posC [makeIdent, litC]) = [] :=
  ⟨(unbuffered_make_rule [] posC [makeIdent, chanTypeC]).1 makeIdent chanTypeC rfl rfl rfl,
   (unbuffered_make_rule [] posC [makeIdent, chanTypeC, litC]).2.1 makeIdent chanTypeC litC []
     rfl,
   (unbuffered_make_rule [] posC [fooIdent, chanTypeC]).2.2.1 fooIdent [chanTypeC] rfl
     (by decide),
   (unbuffered_make_rule [] posC [makeIdent, litC]).2.2.2 makeIdent litC [] rfl (by decide)⟩

/-- The analyzer state the `ast.Inspect` callback hands to a rule when it
dispatches node `n` from state `a`: in `analyze` the push of `n` onto the
parent stack precedes the kind dispatch, so this is `a` with `n` pushed. -/
def stateAtRule (a : Analyzer) (n : Node) : Analyzer :=
  { a with stack := parentStack.push a.stack n }

/-- The enter step is exactly the kind dispatch applied to the pushed
state. -/
theorem enterStep_dispatch (a : Analyzer) (n : Node) :
    enterStep a n
      = match n.kind with
        | NodeKind.sendStmt => checkChannelSend (stateAtRule a n) n
        | NodeKind.callExpr => checkChannelCreation (stateAtRule a n) n
        | _ => stateAtRule a n := rfl

/-- Claim C4 counterexample: for the concrete send `sendA` visited with
root-to-parent path `[fileA]`, the AncestorContext in effect at the rule
invocation is not the path to the parent, `[fileA]`, as the claim states: it
is `[fileA, sendA]`, which contains the visited node itself as last
element. -/
theorem context_at_rule_contains_node_cex :
    enterStep { issues := [], stack := [fileA] } sendA
      = checkChannelSend (stateAtRule { issues := [], stack := [fileA] } sendA) sendA
    ∧ (stateAtRule { issues := [], stack := [fileA] } sendA).stack = [fileA, sendA]
    ∧ (stateAtRule { issues := [], stack := [fileA] } sendA).stack ≠ [fileA] := by
  refine ⟨rfl, rfl, fun h => ?_⟩
  simpa [stateAtRule, parentStack.push] using congrArg List.length h

/-- Claim C4 amended: at every rule invocation on a node `n`, of either rule
and for every node kind, the AncestorContext the dispatch hands over equals
the path from the tree root to `n` itself: the incoming stack (the
root-to-parent path) with `n` appended, so its last element is `n`, not
`n`'s direct parent. -/
theorem context_at_rule_includes_node (a : Analyzer) (n : Node) :
    (enterStep a n
      = match n.kind with
        | NodeKind.sendStmt => checkChannelSend (stateAtRule a n) n
        | NodeKind.callExpr => checkChannelCreation (stateAtRule a n) n
        | _ => stateAtRule a n)
    ∧ (stateAtRule a n).stack = a.stack ++ [n]
    ∧ ((stateAtRule a n).stack).getLast? = some n := by
  refine ⟨enterStep_dispatch a n, rfl, ?_⟩
  simp [stateAtRule, parentStack.push, List.getLast?_concat]

/-- Claim C5 counterexample: analyzing `fileB` after `fileA` with one
analyzer (as `analyzePath` does over a directory) hands reporting a collector
that still holds `fileA`'s warning: it differs from the collector a fresh
analyzer produces on `fileB` alone, and it interleaves both files' issues. -/
theorem collector_not_reset_cex :
    (analyze (analyze { issues := [], stack := [] } (some fileA)) (some fileB)).issues
      ≠ (analyze { issues := [], stack := [] } (some fileB)).issues
    ∧ (analyze (analyze { issues := [], stack := [] } (some fileA)) (some fileB)).issues
      = [{ pos := posA, message := sendWarningMessage, severity := "WARNING" },
         { pos := posB, message := sendWarningMessage, severity := "WARNING" }] := by
  constructor
  · decide
  · decide

/-- Claim C5 amended: at the start of each file's analysis only the
AncestorContext is reset (the result does not depend on the incoming stack);
the IssueCollector is not reset: the issues already collected are kept and
the file's own issues, which depend only on the file, are appended after
them, so the collector handed to reporting holds the concatenation of all
analyzed files' issues. -/
theorem collector_accumulates_across_files (a : Analyzer) (t : Node) :
    analyze a (some t) = analyze { a with stack := [] } (some t)
    ∧ (analyze a (some t)).issues = a.issues ++ treeEmission [] t := by
  refine ⟨rfl, ?_⟩
  rw [analyze_split]

/-- Traversal events as seen by the `ast.Inspect` callback: each node on
entry, and one nil signal when the traversal leaves a node. -/
inductive WalkEv where
  | enter : Node → WalkEv
  | leave : WalkEv

mutual

/-- Event trace `ast.Inspect` produces for one subtree. -/
def walkEvents : Node → List WalkEv
  | Node.mk k r cs =>
    WalkEv.enter (Node.mk k r cs) :: (walkListEvents cs ++ [WalkEv.leave])

/-- Event trace for a sibling list. -/
def walkListEvents : List Node → List WalkEv
  | [] => []
  | c :: cs => walkEvents c ++ walkListEvents cs

end

/-- Replay of an event trace on the parent stack exactly as the callback
acts: push on entry, guarded pop on the nil signal. -/
def replayStack (s : List Node) : List WalkEv → List Node
  | [] => s
  | WalkEv.enter n :: es => replayStack (parentStack.push s n) es
  | WalkEv.leave :: es =>
    replayStack (if 0 < s.length then parentStack.pop s else s) es

/-- Depth left after a trace when `d` nodes are entered and unmatched;
`none` marks a pop arriving while no unmatched entered node remains. -/
def depthAfter (d : Nat) : List WalkEv → Option Nat
  | [] => some d
  | WalkEv.enter _ :: es => depthAfter (d + 1) es
  | WalkEv.leave :: es =>
    match d with
    | 0 => none
    | d' + 1 => depthAfter d' es

/-- Replay distributes over trace concatenation. -/
theorem replayStack_append (s : List Node) (xs ys : List WalkEv) :
    replayStack s (xs ++ ys) = replayStack (replayStack s xs) ys := by
  induction xs generalizing s with
  | nil => rfl
  | cons e es ih => cases e <;> simp [replayStack, ih]

/-- Depth tracking distributes over trace concatenation. -/
theorem depthAfter_append (d : Nat) (xs ys : List WalkEv) :
    depthAfter d (xs ++ ys) = (depthAfter d xs).bind fun d1 => depthAfter d1 ys := by
  induction xs generalizing d with
  | nil => rfl
  | cons e es ih =>
    cases e with
    | enter n => simp [depthAfter, ih]
    | leave =>
      cases d with
      | zero => rfl
      | succ d1 => simp [depthAfter, ih]

mutual

/-- A subtree's trace is balanced: starting from `d` unmatched entries it
never pops past them and ends with `d` again, so every enter is matched by
exactly one later pop, in stack order. -/
theorem walkEvents_balanced : ∀ (n : Node) (d : Nat),
    depthAfter d (walkEvents n) = some d
  | Node.mk k r cs, d => by
    rw [walkEvents]
    simp only [depthAfter]
    rw [depthAfter_append, walkListEvents_balanced cs (d + 1)]
    rfl

/-- A sibling list's trace is balanced. -/
theorem walkListEvents_balanced : ∀ (cs : List Node) (d : Nat),
    depthAfter d (walkListEvents cs) = some d
  | [], d => rfl
  | c :: cs, d => by
    rw [walkListEvents, depthAfter_append, walkEvents_balanced c d]
    simpa using walkListEvents_balanced cs d

end

/-- The stack kept by `walk` is the replay of the subtree's event trace. -/
theorem enterStep_stack (a : Analyzer) (n : Node) :
    (enterStep a n).stack = parentStack.push a.stack n := by
  rw [enterStep_split]

mutual

/-- Walking a subtree drives the stack exactly as replaying its trace. -/
theorem walk_replay : ∀ (n : Node) (a : Analyzer),
    (walk a n).stack = replayStack a.stack (walkEvents n)
  | Node.mk k r cs, a => by
    rw [walk, walkEvents]
    simp only [replayStack]
    rw [replayStack_append, ← enterStep_stack a (Node.mk k r cs),
      ← walkList_replay cs (enterStep a (Node.mk k r cs))]
    generalize walkList (enterStep a (Node.mk k r cs)) cs = b
    by_cases hb : 0 < b.stack.length <;> simp [exitStep, replayStack, hb]

/-- Walking a sibling list drives the stack exactly as replaying its
trace. -/
theorem walkList_replay : ∀ (cs : List Node) (a : Analyzer),
    (walkList a cs).stack = replayStack a.stack (walkListEvents cs)
  | [], a => rfl
  | c :: cs, a => by
    rw [walkList, walkListEvents, replayStack_append, ← walk_replay c a]
    exact walkList_replay cs (walk a c)

end

/-- Claim C6: the traversal maintains exact stack discipline: the stack is
driven precisely by the enter/leave trace, that trace is balanced (each entry
gets exactly one later pop and no pop arrives out of order, witnessed by the
depth count never underflowing and returning to its start), and after a whole
file's traversal the AncestorContext is empty. -/
theorem stack_discipline (a : Analyzer) (t : Node) :
    (walk a t).stack = replayStack a.stack (walkEvents t)
    ∧ depthAfter 0 (walkEvents t) = some 0
    ∧ (analyze a (some t)).stack = [] := by
  refine ⟨walk_replay t a, walkEvents_balanced t 0, ?_⟩
  rw [analyze_split]

/-- Claim C7: invoked with an absent tree (a nil file), `analyze` is a silent
no-op: the state is returned unchanged, so no rule runs and, the collector
starting empty, zero issues are reported. -/
theorem analyze_absent_tree (a : Analyzer) :
    analyze a none = a
    ∧ (analyze { issues := [], stack := [] } none).issues = [] :=
  ⟨rfl, rfl⟩

/-- Claim C8: re-running the traversal on the unchanged tree appends an issue
sequence equal, element for element in severity, message and position, to the
sequence the first run appended. -/
theorem rerun_same_issue_sequence (a : Analyzer) (t : Node) :
    newIssues (analyze a (some t)) (some t) = newIssues a (some t) := by
  simp [newIssues, analyze_split, List.drop_left]

/-- Claim C9: `parentStack.pop` never underflows: on the empty stack it is a
no-op, and on any stack it is total and removes exactly the last element, so
surplus exit signals cannot make the traversal fail. -/
theorem pop_never_underflows (s : List Node) :
    parentStack.pop ([] : List Node) = []
    ∧ parentStack.pop s = s.dropLast
    ∧ (parentStack.pop s).length = s.length - 1 := by
  refine ⟨rfl, ?_, ?_⟩
  · cases s <;> simp [parentStack.pop]
  · cases s <;> simp [parentStack.pop, List.length_dropLast]

/-- The send rule appends either nothing or the single fixed WARNING issue at
the node's range. -/
theorem sendIssues_cases (s : List Node) (n : Node) :
    sendIssues s n = []
    ∨ sendIssues s n
        = [{ pos := n.range, message := sendWarningMessage, severity := "WARNING" }] := by
  unfold sendIssues
  split <;> simp

/-- The creation rule appends either nothing or the single fixed INFO issue
at the node's range. -/
theorem creationIssues_cases (n : Node) :
    creationIssues n = []
    ∨ creationIssues n
        = [{ pos := n.range, message := creationInfoMessage, severity := "INFO" }] := by
  unfold creationIssues
  repeat split
  all_goals simp

/-- Every issue one rule invocation appends has one of the two fixed
severity-message pairs. -/
theorem ruleEmission_forms (p : List Node) (n : Node) (i : Issue)
    (hi : i ∈ ruleEmission p n) :
    (i.severity = "WARNING" ∧ i.message = sendWarningMessage)
    ∨ (i.severity = "INFO" ∧ i.message = creationInfoMessage) := by
  unfold ruleEmission at hi
  split at hi
  · rcases sendIssues_cases (parentStack.push p n) n with h | h
    · rw [h] at hi
      simp at hi
    · rw [h] at hi
      simp only [List.mem_singleton] at hi
      subst hi
      exact Or.inl ⟨rfl, rfl⟩
  · rcases creationIssues_cases n with h | h
    · rw [h] at hi
      simp at hi
    · rw [h] at hi
      simp only [List.mem_singleton] at hi
      subst hi
      exact Or.inr ⟨rfl, rfl⟩
  · simp at hi

mutual

/-- Every issue a subtree's traversal contributes has one of the two fixed
forms. -/
theorem treeEmission_forms : ∀ (n : Node) (p : List Node) (i : Issue),
    i ∈ treeEmission p n →
    (i.severity = "WARNING" ∧ i.message = sendWarningMessage)
    ∨ (i.severity = "INFO" ∧ i.message = creationInfoMessage)
  | Node.mk k r cs, p, i, hi => by
    rw [treeEmission] at hi
    rcases List.mem_append.mp hi with h | h
    · rw [visitEmission_eq] at h
      exact ruleEmission_forms p (Node.mk k r cs) i h
    · exact forestEmission_forms cs (p ++ [Node.mk k r cs]) i h

/-- Every issue a sibling list's traversal contributes has one of the two
fixed forms. -/
theorem forestEmission_forms : ∀ (cs : List Node) (p : List Node) (i : Issue),
    i ∈ forestEmission p cs →
    (i.severity = "WARNING" ∧ i.message = sendWarningMessage)
    ∨ (i.severity = "INFO" ∧ i.message = creationInfoMessage)
  | [], p, i, hi => by simp [forestEmission] at hi
  | c :: cs, p, i, hi => by
    rw [forestEmission] at hi
    rcases List.mem_append.mp hi with h | h
    · exact treeEmission_forms c p i h
    · exact forestEmission_forms cs p i h

end

/-- Claim C10: every issue the analysis appends to the collector has one of
exactly two forms: severity WARNING with the fixed blocking-send message, or
severity INFO with the fixed unbuffered-creation message; the two pairs are
mutually exclusive, so the severity determines the message and the message
the severity. -/
theorem collector_issue_forms (a : Analyzer) (t : Node) (i : Issue)
    (hi : i ∈ newIssues a (some t)) :
    (i.severity = "WARNING" ∧ i.message = sendWarningMessage
       ∧ i.severity ≠ "INFO" ∧ i.message ≠ creationInfoMessage)
    ∨ (i.severity = "INFO" ∧ i.message = creationInfoMessage
       ∧ i.severity ≠ "WARNING" ∧ i.message ≠ sendWarningMessage) := by
  have hmem : i ∈ treeEmission [] t := by
    have hn : newIssues a (some t) = treeEmission [] t := by
      simp [newIssues, analyze_split, List.drop_left]
    rwa [hn] at hi
  rcases treeEmission_forms t [] i hmem with ⟨h1, h2⟩ | ⟨h1, h2⟩
  · exact Or.inl ⟨h1, h2, by rw [h1]; decide, by rw [h2]; decide⟩
  · exact Or.inr ⟨h1, h2, by rw [h1]; decide, by rw [h2]; decide⟩

/-- Witness for C10 at the concrete warning issue produced for `fileA`. -/
theorem collector_issue_forms_witness :
    ({ pos := posA, message := sendWarningMessage, severity := "WARNING" } : Issue)
      ∈ newIssues { issues := [], stack := [] } (some fileA)
    ∧ ((({ pos := posA, message := sendWarningMessage, severity := "WARNING" } : Issue).severity
          = "WARNING"
        ∧ ({ pos := posA, message := sendWarningMessage, severity := "WARNING" } : Issue).message
          = sendWarningMessage
        ∧ ({ pos := posA, message := sendWarningMessage, severity := "WARNING" } : Issue).severity
          ≠ "INFO"
        ∧ ({ pos := posA, message := sendWarningMessage, severity := "WARNING" } : Issue).message
          ≠ creationInfoMessage)
      ∨ (({ pos := posA, message := sendWarningMessage, severity := "WARNING" } : Issue).severity
          = "INFO"
        ∧ ({ pos := posA, message := sendWarningMessage, severity := "WARNING" } : Issue).message
          = creationInfoMessage
        ∧ ({ pos := posA, message := sendWarningMessage, severity := "WARNING" } : Issue).severity
          ≠ "WARNING"
        ∧ ({ pos := posA, message := sendWarningMessage, severity := "WARNING" } : Issue).message
          ≠ sendWarningMessage)) :=
  ⟨by decide,
    collector_issue_forms { issues := [], stack := [] } fileA
      { pos := posA, message := sendWarningMessage, severity := "WARNING" } (by decide)⟩
